import Mathlib

/-!
Verification of the HPC-Cryptominer-Open-Source repository.

This file shallowly embeds the Python code of the repository and proves
properties of the embedding:

* `src/mining_engine/pool_manager.py`: `_difficulty_to_target`, `get_work`
  (PoolManager).
* `src/mining_engine/optimizer.py`: `segment_work`,
  `_calculate_base_segment_size`, `record_rejection` / `record_performance`
  (worker efficiency updates) and `_optimize_worker_configuration`
  (AIOptimizer).
* `src/orchestrator/cluster_manager.py`: the node registry
  (`register_node`, `unregister_node`, `update_node_status`, `assign_work`),
  `_update_cluster_stats`, `_calculate_hardware_score`, `_expected_hashrate`
  (ClusterManager).

Python machine-level conventions used throughout the embedding:

* Python `int` is unbounded, so it is modelled by `Int` (or `Nat` where the
  source value is manifestly non-negative).
* Python `float` arithmetic is modelled by exact rational arithmetic on `ℚ`.
* `int(x)` applied to a float/rational truncates toward zero (`pyInt`).
* Python dict `.get(key, default)` reads are modelled by `Option` fields
  together with `Option.getD`.
-/

/-- Python `int(q)` for a rational `q`: truncation toward zero. -/
def pyInt (q : ℚ) : Int :=
  if 0 ≤ q then ⌊q⌋ else ⌈q⌉

/-! ### Hexadecimal rendering and parsing

`_difficulty_to_target` renders a number with `hex(target)[2:].zfill(64)`;
`get_work` parses the stored target string with `int(s, 16)`.  We model
rendering by repeated division by 16 (fuel-based, little-endian digits) and
parsing by a left fold over the characters.
-/

/-- The character Python's `hex` uses for the hex digit `d` (lowercase). -/
def hexDigitChar (d : Nat) : Char :=
  if d < 10 then Char.ofNat (48 + d) else Char.ofNat (87 + d)

/-- Value of a hex digit character, accepting the digit sets accepted by
Python's `int(s, 16)`: `0-9`, `a-f`, `A-F`. -/
def hexCharVal? (c : Char) : Option Nat :=
  if 48 ≤ c.toNat ∧ c.toNat ≤ 57 then some (c.toNat - 48)
  else if 97 ≤ c.toNat ∧ c.toNat ≤ 102 then some (c.toNat - 87)
  else if 65 ≤ c.toNat ∧ c.toNat ≤ 70 then some (c.toNat - 55)
  else none

/-- Little-endian base-16 digits of `n`, with explicit fuel (the fuel `n`
itself is always sufficient). -/
def hexDigitsAux : Nat → Nat → List Nat
  | 0, _ => []
  | _ + 1, 0 => []
  | f + 1, n + 1 => ((n + 1) % 16) :: hexDigitsAux f ((n + 1) / 16)

/-- Value of a little-endian base-16 digit list. -/
def ofLEHexDigits : List Nat → Nat
  | [] => 0
  | d :: t => d + 16 * ofLEHexDigits t

/-- `hex(n)[2:]` for a non-negative `n` (for `n = 0` this is the empty
string; Python gives `"0"`, but both agree after `zfill`). -/
def natToHexString (n : Nat) : String :=
  String.mk (((hexDigitsAux n n).reverse).map hexDigitChar)

/-- Python `s.zfill(k)` for a digit string: left-pad with `'0'` to width
`k`. -/
def zfill (k : Nat) (s : String) : String :=
  String.mk (List.replicate (k - s.length) '0' ++ s.data)

/-- Core of `int(s, 16)`: left fold over the characters, failing on the
first non-hex character. -/
def decodeHexCore : List Char → Nat → Option Nat
  | [], acc => some acc
  | c :: t, acc =>
    match hexCharVal? c with
    | none => none
    | some d => decodeHexCore t (16 * acc + d)

/-- Python `int(s, 16)`: `none` models a raised `ValueError`. -/
def decodeHex? (s : String) : Option Nat :=
  if s.data.isEmpty then none else decodeHexCore s.data 0

/-! ### PoolManager (`src/mining_engine/pool_manager.py`) -/

/-- The canonical Bitcoin difficulty-1 target (`diff1_target` in
`_difficulty_to_target`). -/
def diff1Target : Nat :=
  0x00000000FFFF0000000000000000000000000000000000000000000000000000

/-- `PoolManager._difficulty_to_target`:
`target = int(diff1_target / difficulty)` followed by
`hex(target)[2:].zfill(64)`.  The float division is modelled exactly on
`ℚ`. -/
def difficultyToTarget (difficulty : ℚ) : String :=
  zfill 64 (natToHexString (pyInt ((diff1Target : ℚ) / difficulty)).toNat)

/-- The `WorkUnit` dataclass of `pool_manager.py` (the shape of
`pool.last_work`); the `target` field holds the hex string produced by
`_difficulty_to_target`. -/
structure PoolWorkUnit where
  job_id : String
  algorithm : String
  data : String
  target : String
  height : Nat
  timestamp : ℚ
  pool_name : String
  difficulty : ℚ
deriving DecidableEq

/-- The `PoolConnection` dataclass (the socket handle is omitted: it is an
OS resource that no claim depends on). -/
structure PoolConnection where
  name : String
  url : String
  port : Nat
  username : String
  password : String
  connected : Bool
  last_work : Option PoolWorkUnit
  last_ping : ℚ
  share_count : Nat
  difficulty : ℚ
deriving DecidableEq

/-- The work dict returned by `PoolManager.get_work`: a copy of
`last_work` updated with `nonce_start`, `nonce_end` and the parsed integer
`target`. -/
structure MinerWork where
  job_id : String
  algorithm : String
  data : String
  height : Nat
  timestamp : ℚ
  pool_name : String
  difficulty : ℚ
  nonce_start : Nat
  nonce_end : Nat
  target : Nat
deriving DecidableEq

/-- Python `needle in haystack` on strings (substring test). -/
def strContains (haystack needle : String) : Bool :=
  haystack.data.tails.any (fun t => needle.data.isPrefixOf t)

/-- The pool-lookup predicate of `get_work`:
`pool.url in pool_url or pool.name in pool_url`. -/
def poolMatches (pool_url : String) (p : PoolConnection) : Bool :=
  strContains pool_url p.url || strContains pool_url p.name

/-- `PoolManager.get_work`.  `Except.error ()` models the `ValueError`
raised by `int(work["target"], 16)` on a malformed target; the stored pool
list is read-only (`last_work` is copied before being updated). -/
def get_work (pools : List PoolConnection) (pool_url : String) :
    Except Unit (Option MinerWork) :=
  match pools.find? (poolMatches pool_url) with
  | none => Except.ok none
  | some target_pool =>
    if target_pool.connected = false then Except.ok none
    else
      match target_pool.last_work with
      | none => Except.ok none
      | some w =>
        match decodeHex? w.target with
        | none => Except.error ()
        | some t =>
          Except.ok (some
            { job_id := w.job_id
              algorithm := w.algorithm
              data := w.data
              height := w.height
              timestamp := w.timestamp
              pool_name := w.pool_name
              difficulty := w.difficulty
              nonce_start := 0
              nonce_end := 0xFFFFFFFF
              target := t })

/-! ### AIOptimizer (`src/mining_engine/optimizer.py`) -/

/-- The work dict handed to `AIOptimizer.segment_work`; fields are
`Option`s because the code reads every one of them with `.get` and a
default. -/
structure OptimizerWork where
  algorithm : Option String
  target : Option Nat
  job_id : Option String
  nonce_start : Option Int
  nonce_end : Option Int
deriving DecidableEq

/-- The `base_sizes` table of `_calculate_base_segment_size`. -/
def base_segment_sizes : List (String × Nat) :=
  [("SHA256", 1000000), ("RandomX", 100000), ("Ethash", 500000),
   ("Scrypt", 200000), ("Yescrypt", 150000), ("Kawpow", 300000),
   ("X11", 400000)]

/-- `AIOptimizer._calculate_base_segment_size`. -/
def calculateBaseSegmentSize (algorithm : String) (difficulty : Nat) : Int :=
  let base_size : Nat := (base_segment_sizes.lookup algorithm).getD 500000
  let difficulty_factor : ℚ :=
    min 2 (max (1 / 10) ((difficulty : ℚ) / (diff1Target : ℚ)))
  pyInt ((base_size : ℚ) * difficulty_factor)

/-- The `while current_nonce < nonce_end` loop of `segment_work`, emitting
the `(nonce_start, nonce_end)` pair each segment dict carries.  The loop is
given explicit fuel; `segmentLoopFuel_stable` below shows that for a
non-negative segment size any fuel of at least `(nonce_end - start).toNat`
computes the loop's limit, i.e. the Python loop terminates within that many
iterations. -/
def segmentLoopFuel : Nat → Int → Int → Int → List (Int × Int)
  | 0, _, _, _ => []
  | f + 1, adjusted_segment_size, nonce_end, current_nonce =>
    if current_nonce < nonce_end then
      let segment_end := min (current_nonce + adjusted_segment_size) nonce_end
      (current_nonce, segment_end) ::
        segmentLoopFuel f adjusted_segment_size nonce_end (segment_end + 1)
    else []

/-- `AIOptimizer.segment_work`, projected to the nonce ranges of the emitted
segments (each emitted dict is `work` with its `nonce_start`/`nonce_end`
replaced by the pair's components, plus a `segment_id`).
`eff?` is `self.worker_efficiency.get(worker_id, 1.0)` before the default is
applied. -/
def segment_work (eff? : Option ℚ) (work : OptimizerWork) : List (Int × Int) :=
  let algorithm := work.algorithm.getD "SHA256"
  let difficulty := work.target.getD diff1Target
  let worker_efficiency := eff?.getD 1
  let base_segment_size := calculateBaseSegmentSize algorithm difficulty
  let adjusted_segment_size := pyInt ((base_segment_size : ℚ) * worker_efficiency)
  let nonce_start := work.nonce_start.getD 0
  let nonce_end := work.nonce_end.getD 0xFFFFFFFF
  segmentLoopFuel (nonce_end - nonce_start).toNat adjusted_segment_size
    nonce_end nonce_start

/-- One worker-efficiency feedback event for a fixed worker: a recorded
rejection (`record_rejection`) or a performance sample for that worker
(`record_performance` with its `rejection_rate`). -/
inductive EffEvent where
  | rejection : EffEvent
  | performance (rejection_rate : ℚ) : EffEvent
deriving DecidableEq

/-- The efficiency update a single event applies:
`record_rejection` does `max(0.1, e * 0.98)`; `record_performance` does
`min(2.0, e * 1.01)` when `rejection_rate < 0.02` and leaves the value
unchanged otherwise. -/
def applyEffEvent (e : ℚ) : EffEvent → ℚ
  | EffEvent.rejection => max (0.1 : ℚ) (e * 0.98)
  | EffEvent.performance rejection_rate =>
    if rejection_rate < (0.02 : ℚ) then min (2 : ℚ) (e * 1.01) else e

/-- Worker efficiency after a sequence of events, starting from the default
`self.worker_efficiency.get(worker_id, 1.0) = 1.0`. -/
def workerEfficiencyAfter (events : List EffEvent) : ℚ :=
  events.foldl applyEffEvent 1

/-- The hardware info dict read by `_optimize_worker_configuration`
(`cpu.cores`, `gpus`, `memory.available`; only emptiness of `gpus` is
inspected, so its entries are modelled as opaque). -/
structure HardwareInfo where
  cpu_cores : Option Nat
  gpus : List Unit
  memory_available : Option Nat
deriving DecidableEq

/-- `AIOptimizer._optimize_worker_configuration`, returning
`(cpu_threads, gpu_intensity)`. -/
def optimizeWorkerConfiguration (hw : HardwareInfo) (algorithm : String) :
    Nat × Nat :=
  let cores := hw.cpu_cores.getD 1
  let config : Nat × Nat := (max 1 (cores - 1), 80)
  if algorithm = "RandomX" then
    let available_memory_gb : ℚ := (hw.memory_available.getD 0 : ℚ) / 1024 ^ 3
    let max_threads_by_memory : Nat := (⌊available_memory_gb / 2⌋).toNat
    (min config.1 max_threads_by_memory, 0)
  else if algorithm = "Ethash" then (1, 100)
  else if algorithm = "SHA256" then
    if hw.gpus.isEmpty then config else (max 1 (cores / 2), 90)
  else config

/-! ### ClusterManager (`src/orchestrator/cluster_manager.py`) -/

/-- The `MiningNode` dataclass. -/
structure MiningNode where
  node_id : String
  hostname : String
  ip_address : String
  port : Nat
  status : String
  last_seen : ℚ
  cpu_cores : Nat
  cpu_threads : Nat
  gpu_count : Nat
  gpu_memory : Nat
  total_memory : Nat
  hashrate : ℚ
  temperature : List (String × ℚ)
  power_usage : ℚ
  uptime : ℚ
  assigned_algorithm : String
  assigned_pool : String
  work_segments : List String
deriving DecidableEq

/-- The `ClusterStats` dataclass (the defaults are those of the Python
dataclass, with the `None`-to-empty-set normalisation of
`__post_init__`). -/
structure ClusterStats where
  total_nodes : Nat := 0
  active_nodes : Nat := 0
  total_hashrate : ℚ := 0
  total_power : ℚ := 0
  algorithms_running : Finset String := ∅
  pools_connected : Finset String := ∅
  efficiency_score : ℚ := 0
deriving DecidableEq

/-- `ClusterManager` state relevant to the registry: the insertion-ordered
node dict and the stored stats. -/
structure ClusterState where
  nodes : List (String × MiningNode)
  stats : ClusterStats
deriving DecidableEq

/-- Python dict assignment `self.nodes[node_id] = node`: replace in place
when the key exists, append otherwise. -/
def setNode (nodes : List (String × MiningNode)) (id : String)
    (n : MiningNode) : List (String × MiningNode) :=
  if (nodes.lookup id).isSome then
    nodes.map (fun p => if p.1 = id then (id, n) else p)
  else nodes ++ [(id, n)]

/-- `ClusterManager._calculate_hardware_score`. -/
def hardwareScore (node : MiningNode) : ℚ :=
  let cpu_score : ℚ := (node.cpu_cores : ℚ) * 10 + (node.cpu_threads : ℚ) * 5
  let gpu_score : ℚ :=
    (node.gpu_count : ℚ) * 50 + ((node.gpu_memory : ℚ) / 1024 ^ 3) * 20
  let memory_score : ℚ := ((node.total_memory : ℚ) / 1024 ^ 3) * 2
  cpu_score + gpu_score + memory_score

/-- The `algorithm_multipliers` dict of `_expected_hashrate`. -/
def algorithm_multipliers : List (String × ℚ) :=
  [("SHA256", 1.0), ("RandomX", 0.8), ("Ethash", 1.2), ("Scrypt", 0.6)]

/-- `ClusterManager._expected_hashrate`: hardware score times the algorithm
multiplier times the base estimation factor 1000. -/
def expectedHashrate (node : MiningNode) : ℚ :=
  hardwareScore node *
    ((algorithm_multipliers.lookup node.assigned_algorithm).getD 1.0) * 1000

/-- `ClusterManager._calculate_cluster_efficiency`. -/
def clusterEfficiency (nodes : List (String × MiningNode)) : ℚ :=
  if nodes.isEmpty then 0
  else
    let mining_nodes :=
      (nodes.map Prod.snd).filter (fun n => n.status == "mining")
    if mining_nodes.isEmpty then 0
    else
      let total_expected := (mining_nodes.map expectedHashrate).sum
      let total_actual := (mining_nodes.map MiningNode.hashrate).sum
      total_actual / max 1 total_expected * 100

/-- `ClusterManager._update_cluster_stats`: the stats as a pure function of
the node dict. -/
def computeStats (nodes : List (String × MiningNode)) : ClusterStats :=
  let ns := nodes.map Prod.snd
  let active_nodes :=
    ns.filter (fun n => n.status == "active" || n.status == "mining")
  let mining_nodes := ns.filter (fun n => n.status == "mining")
  { total_nodes := nodes.length
    active_nodes := active_nodes.length
    total_hashrate := (mining_nodes.map MiningNode.hashrate).sum
    total_power := (mining_nodes.map MiningNode.power_usage).sum
    algorithms_running :=
      ((mining_nodes.filter (fun n => n.assigned_algorithm != "")).map
        MiningNode.assigned_algorithm).toFinset
    pools_connected :=
      ((mining_nodes.filter (fun n => n.assigned_pool != "")).map
        MiningNode.assigned_pool).toFinset
    efficiency_score := clusterEfficiency nodes }

/-- The state a fresh `ClusterManager` starts in (`self.nodes = {}`,
`self.cluster_stats = ClusterStats()`). -/
def initialClusterState : ClusterState :=
  { nodes := [], stats := {} }

/-- The `node_info` dict taken by `register_node`; every field is read with
`.get` and a default. -/
structure NodeInfo where
  node_id : Option String
  hostname : Option String
  ip_address : Option String
  port : Option Nat
  cpu_cores : Option Nat
  cpu_threads : Option Nat
  gpu_count : Option Nat
  gpu_memory : Option Nat
  total_memory : Option Nat
deriving DecidableEq

/-- `node_info.get("node_id") or str(uuid.uuid4())`: a missing or empty
(falsy) id falls back to a fresh uuid, supplied here as `freshId`. -/
def resolveNodeId (given : Option String) (freshId : String) : String :=
  match given with
  | none => freshId
  | some s => if s = "" then freshId else s

/-- `ClusterManager.register_node` (`now` is `time.time()`; the triggered
rebalancing only issues node commands and does not touch the registry).
Returns the assigned node id and the new state. -/
def registerNode (s : ClusterState) (info : NodeInfo) (now : ℚ)
    (freshId : String) : String × ClusterState :=
  let node_id := resolveNodeId info.node_id freshId
  let node : MiningNode :=
    { node_id := node_id
      hostname := info.hostname.getD "unknown"
      ip_address := info.ip_address.getD "127.0.0.1"
      port := info.port.getD 8080
      status := "active"
      last_seen := now
      cpu_cores := info.cpu_cores.getD 1
      cpu_threads := info.cpu_threads.getD 1
      gpu_count := info.gpu_count.getD 0
      gpu_memory := info.gpu_memory.getD 0
      total_memory := info.total_memory.getD 0
      hashrate := 0
      temperature := []
      power_usage := 0
      uptime := 0
      assigned_algorithm := ""
      assigned_pool := ""
      work_segments := [] }
  let nodes' := setNode s.nodes node_id node
  (node_id, { nodes := nodes', stats := computeStats nodes' })

/-- `ClusterManager.unregister_node` (`_stop_node_mining` mutates the node
just before it is deleted, so the net effect on the registry is the
deletion). -/
def unregisterNode (s : ClusterState) (id : String) : ClusterState :=
  if (s.nodes.lookup id).isSome then
    let nodes' := s.nodes.filter (fun p => p.1 != id)
    { nodes := nodes', stats := computeStats nodes' }
  else s

/-- The `status_data` dict taken by `update_node_status`; `algorithm` and
`pool` are only written when present (`if "algorithm" in status_data`). -/
structure StatusData where
  hashrate : Option ℚ
  temperature : Option (List (String × ℚ))
  power_usage : Option ℚ
  uptime : Option ℚ
  status : Option String
  algorithm : Option String
  pool : Option String
deriving DecidableEq

/-- `ClusterManager.update_node_status`. -/
def updateNodeStatus (s : ClusterState) (id : String) (d : StatusData)
    (now : ℚ) : ClusterState :=
  match s.nodes.lookup id with
  | none => s
  | some node =>
    let node' : MiningNode :=
      { node with
        last_seen := now
        hashrate := d.hashrate.getD 0
        temperature := d.temperature.getD []
        power_usage := d.power_usage.getD 0
        uptime := d.uptime.getD 0
        status := d.status.getD "active"
        assigned_algorithm := (d.algorithm).getD node.assigned_algorithm
        assigned_pool := (d.pool).getD node.assigned_pool }
    let nodes' := setNode s.nodes id node'
    { nodes := nodes', stats := computeStats nodes' }

/-- `ClusterManager.assign_work`.  `outcome` is the result of
`_send_node_command`: `Except.ok b` for a returned boolean `b`,
`Except.error ()` for an exception caught by the surrounding `try`.
Note that no branch updates the stored `ClusterStats`. -/
def assignWork (s : ClusterState) (id algorithm pool : String)
    (work_segments : List String) (outcome : Except Unit Bool) :
    Bool × ClusterState :=
  match s.nodes.lookup id with
  | none => (false, s)
  | some node =>
    match outcome with
    | Except.error _ => (false, s)
    | Except.ok false => (false, s)
    | Except.ok true =>
      let node' : MiningNode :=
        { node with
          assigned_algorithm := algorithm
          assigned_pool := pool
          work_segments := work_segments
          status := "mining" }
      (true, { s with nodes := setNode s.nodes id node' })

/-- Registry/stats consistency: the stored `ClusterStats` is exactly the
pure recomputation from the node dict. -/
def statsConsistent (s : ClusterState) : Prop :=
  s.stats = computeStats s.nodes

instance (s : ClusterState) : Decidable (statsConsistent s) := by
  unfold statsConsistent; infer_instance

/-! ### Concrete inputs used by counterexamples and witnesses -/

/-- A small work dict: SHA256, default target, nonce range `[0, 10)`. -/
def gapWork : OptimizerWork :=
  { algorithm := some "SHA256", target := none, job_id := none,
    nonce_start := some 0, nonce_end := some 10 }

/-- A stored worker efficiency giving an adjusted segment size of 3. -/
def gapEff : Option ℚ := some (3 / 1000000)

/-- Hardware with less than 2 GiB of available memory. -/
def lowMemHw : HardwareInfo :=
  { cpu_cores := some 8, gpus := [], memory_available := some 1000000000 }

/-- A stored work unit with a well-formed hex target. -/
def demoWork : PoolWorkUnit :=
  { job_id := "job1", algorithm := "sha256", data := "00", target := "00ff",
    height := 100, timestamp := 0, pool_name := "poolA", difficulty := 1 }

/-- A connected pool holding `demoWork`. -/
def demoPool : PoolConnection :=
  { name := "poolA", url := "pool.example.com:3333", username := "u",
    password := "x", port := 3333, connected := true,
    last_work := some demoWork, last_ping := 0, share_count := 0,
    difficulty := 1 }

/-- A mining node with one CPU core and no other hardware, on SHA256. -/
def c3Node : MiningNode :=
  { node_id := "n1", hostname := "h", ip_address := "10.0.0.1", port := 8080,
    status := "mining", last_seen := 0, cpu_cores := 1, cpu_threads := 0,
    gpu_count := 0, gpu_memory := 0, total_memory := 0, hashrate := 0,
    temperature := [], power_usage := 0, uptime := 0,
    assigned_algorithm := "SHA256", assigned_pool := "", work_segments := [] }

/-- A registration dict for node `n1`. -/
def c4Info : NodeInfo :=
  { node_id := some "n1", hostname := some "h", ip_address := some "10.0.0.1",
    port := some 8080, cpu_cores := some 4, cpu_threads := some 8,
    gpu_count := some 0, gpu_memory := some 0, total_memory := some 0 }

/-- A status update setting a nonzero hashrate and status `mining`. -/
def c5Status : StatusData :=
  { hashrate := some 5, temperature := none, power_usage := none,
    uptime := none, status := some "mining", algorithm := none, pool := none }

/-! ### Helper lemmas: hexadecimal round trip -/

theorem hexCharVal?_hexDigitChar {d : Nat} (hd : d < 16) :
    hexCharVal? (hexDigitChar d) = some d := by
  interval_cases d <;> rfl

theorem decodeHexCore_replicate_zero (k : Nat) (cs : List Char) :
    decodeHexCore (List.replicate k '0' ++ cs) 0 = decodeHexCore cs 0 := by
  induction k with
  | zero => rfl
  | succ k ih => simpa [List.replicate_succ, decodeHexCore, hexCharVal?] using ih

theorem decodeHexCore_digits (l : List Nat) (acc : Nat)
    (h : ∀ d ∈ l, d < 16) :
    decodeHexCore (l.map hexDigitChar) acc =
      some (l.foldl (fun x d => 16 * x + d) acc) := by
  induction l generalizing acc with
  | nil => rfl
  | cons d t ih =>
    have hd : d < 16 := h d (List.mem_cons_self d t)
    have ht : ∀ x ∈ t, x < 16 := fun x hx => h x (List.mem_cons_of_mem d hx)
    simp [decodeHexCore, hexCharVal?_hexDigitChar hd, ih _ ht, List.foldl_cons]

theorem foldl_reverse_hexDigits (l : List Nat) (a : Nat) :
    (l.reverse).foldl (fun x d => 16 * x + d) a =
      a * 16 ^ l.length + ofLEHexDigits l := by
  induction l generalizing a with
  | nil => simp [ofLEHexDigits]
  | cons d t ih =>
    simp only [List.reverse_cons, List.foldl_append, List.foldl_cons,
      List.foldl_nil, ih, ofLEHexDigits, List.length_cons]
    ring

theorem ofLEHexDigits_hexDigitsAux :
    ∀ f n, n ≤ f → ofLEHexDigits (hexDigitsAux f n) = n := by
  intro f
  induction f with
  | zero =>
    intro n hn
    interval_cases n
    rfl
  | succ f ih =>
    intro n hn
    match n with
    | 0 => rfl
    | n + 1 =>
      have hdiv : (n + 1) / 16 ≤ f := by
        have h1 : (n + 1) / 16 < n + 1 := Nat.div_lt_self (Nat.succ_pos n) (by norm_num)
        omega
      simp only [hexDigitsAux, ofLEHexDigits, ih _ hdiv]
      omega

theorem hexDigitsAux_lt :
    ∀ f n d, d ∈ hexDigitsAux f n → d < 16 := by
  intro f
  induction f with
  | zero => intro n d hd; simp [hexDigitsAux] at hd
  | succ f ih =>
    intro n d hd
    match n with
    | 0 => simp [hexDigitsAux] at hd
    | n + 1 =>
      simp only [hexDigitsAux, List.mem_cons] at hd
      rcases hd with h | h
      · subst h; exact Nat.mod_lt _ (by norm_num)
      · exact ih _ _ h

theorem decodeHex?_zfill_natToHexString (n : Nat) :
    decodeHex? (zfill 64 (natToHexString n)) = some n := by
  have hlt : ∀ d ∈ (hexDigitsAux n n).reverse, d < 16 := by
    intro d hd
    exact hexDigitsAux_lt n n d (List.mem_reverse.mp hd)
  have hmap : ((hexDigitsAux n n).reverse).map hexDigitChar =
      (natToHexString n).data := rfl
  have hcore : decodeHexCore ((natToHexString n).data) 0 = some n := by
    rw [← hmap, decodeHexCore_digits _ 0 hlt, foldl_reverse_hexDigits]
    simp [ofLEHexDigits_hexDigitsAux n n le_rfl]
  have hne : ¬(List.replicate (64 - (natToHexString n).length) '0' ++
      (natToHexString n).data).isEmpty := by
    by_cases hc : (natToHexString n).data = []
    · have hlen : (natToHexString n).length = 0 := by
        simp [String.length, hc]
      simp [hlen, hc, List.isEmpty_iff]
    · simp [List.isEmpty_iff, hc]
  simp only [decodeHex?, zfill]
  rw [if_neg (by simpa using hne)]
  simpa [decodeHexCore_replicate_zero] using hcore

/-! ### Helper lemmas: `pyInt` and the difficulty-to-target conversion -/

theorem pyInt_nonneg_eq_floor {q : ℚ} (h : 0 ≤ q) : pyInt q = ⌊q⌋ := by
  simp [pyInt, h]

theorem pyInt_nonneg {q : ℚ} (h : 0 ≤ q) : 0 ≤ pyInt q := by
  rw [pyInt_nonneg_eq_floor h]
  exact Int.floor_nonneg.mpr h

theorem difficultyToTarget_decode (d : ℚ) (hd : 0 < d) :
    decodeHex? (difficultyToTarget d) = some (⌊(diff1Target : ℚ) / d⌋).toNat := by
  have hq : (0 : ℚ) ≤ (diff1Target : ℚ) / d :=
    div_nonneg (by positivity) hd.le
  rw [difficultyToTarget, pyInt_nonneg_eq_floor hq, decodeHex?_zfill_natToHexString]

/-! ### Helper lemmas: the segmentation loop -/

theorem segmentLoopFuel_of_not_lt {f : Nat} {adj ne c : Int} (h : ¬c < ne) :
    segmentLoopFuel f adj ne c = [] := by
  cases f <;> simp [segmentLoopFuel, h]

theorem segmentLoopFuel_stable_aux (adj ne : Int) (hadj : 0 ≤ adj) :
    ∀ k f c, (ne - c).toNat ≤ k → k ≤ f →
      segmentLoopFuel f adj ne c = segmentLoopFuel k adj ne c := by
  intro k
  induction k with
  | zero =>
    intro f c hk _
    have hnc : ¬c < ne := by omega
    rw [segmentLoopFuel_of_not_lt hnc, segmentLoopFuel_of_not_lt hnc]
  | succ k ih =>
    intro f c hk hf
    match f with
    | 0 => omega
    | f + 1 =>
      by_cases hc : c < ne
      · have hse : c ≤ min (c + adj) ne := by omega
        simp only [segmentLoopFuel, if_pos hc]
        congr 1
        exact ih f _ (by omega) (by omega)
      · rw [segmentLoopFuel_of_not_lt hc, segmentLoopFuel_of_not_lt hc]

theorem segmentLoopFuel_length_le (adj ne : Int) (hadj : 0 ≤ adj) :
    ∀ f c, (segmentLoopFuel f adj ne c).length ≤ (ne - c).toNat := by
  intro f
  induction f with
  | zero => intro c; simp [segmentLoopFuel]
  | succ f ih =>
    intro c
    by_cases hc : c < ne
    · simp only [segmentLoopFuel, if_pos hc, List.length_cons]
      have h1 := ih (min (c + adj) ne + 1)
      have hse : c ≤ min (c + adj) ne := by omega
      omega
    · rw [segmentLoopFuel_of_not_lt hc]
      simp

theorem segmentLoopFuel_props (adj ne : Int) (hadj : 0 ≤ adj) :
    ∀ f c, c < ne → (ne - c).toNat ≤ f →
      (segmentLoopFuel f adj ne c).head?.map Prod.fst = some c ∧
      (∀ p ∈ segmentLoopFuel f adj ne c, c ≤ p.1 ∧ p.1 ≤ p.2 ∧ p.2 ≤ ne) ∧
      List.Chain' (fun p q => q.1 = p.2 + 1) (segmentLoopFuel f adj ne c) ∧
      (∀ n, c ≤ n → n < ne →
        ∃ p ∈ segmentLoopFuel f adj ne c, p.1 ≤ n ∧ n ≤ p.2) ∧
      List.Pairwise (fun p q => p.2 < q.1) (segmentLoopFuel f adj ne c) := by
  intro f
  induction f with
  | zero => intro c hc hf; omega
  | succ f ih =>
    intro c hc hf
    have hse1 : c ≤ min (c + adj) ne := by omega
    have hse2 : min (c + adj) ne ≤ ne := by omega
    simp only [segmentLoopFuel, if_pos hc]
    by_cases hnext : min (c + adj) ne + 1 < ne
    · have hrest := ih (min (c + adj) ne + 1) hnext (by omega)
      obtain ⟨rh, rbounds, rchain, rcover, rpair⟩ := hrest
      refine ⟨rfl, ?_, ?_, ?_, ?_⟩
      · intro p hp
        rcases List.mem_cons.mp hp with h | h
        · subst h; exact ⟨le_refl _, hse1, hse2⟩
        · have hb := rbounds p h
          exact ⟨by omega, hb.2.1, hb.2.2⟩
      · rw [List.chain'_cons']
        refine ⟨?_, rchain⟩
        intro q hq
        rw [Option.mem_def] at hq
        rw [hq] at rh
        simpa using rh
      · intro n hn1 hn2
        by_cases hn3 : n ≤ min (c + adj) ne
        · exact ⟨(c, min (c + adj) ne), List.mem_cons_self _ _, hn1, hn3⟩
        · obtain ⟨p, hp, hp1, hp2⟩ := rcover n (by omega) hn2
          exact ⟨p, List.mem_cons_of_mem _ hp, hp1, hp2⟩
      · rw [List.pairwise_cons]
        refine ⟨?_, rpair⟩
        intro q hq
        have hb := rbounds q hq
        omega
    · have hrest : segmentLoopFuel f adj ne (min (c + adj) ne + 1) = [] :=
        segmentLoopFuel_of_not_lt hnext
      rw [hrest]
      refine ⟨rfl, ?_, by simp, ?_, by simp⟩
      · intro p hp
        rcases List.mem_cons.mp hp with h | h
        · subst h; exact ⟨le_refl _, hse1, hse2⟩
        · simp at h
      · intro n hn1 hn2
        exact ⟨(c, min (c + adj) ne), List.mem_cons_self _ _, hn1, by omega⟩

theorem calculateBaseSegmentSize_nonneg (a : String) (d : Nat) :
    0 ≤ calculateBaseSegmentSize a d := by
  rw [calculateBaseSegmentSize]
  apply pyInt_nonneg
  apply mul_nonneg (Nat.cast_nonneg _)
  apply le_min (by norm_num)
  exact le_trans (by norm_num) (le_max_left (1 / 10) _)

theorem calculateBaseSegmentSize_sha256_diff1 :
    calculateBaseSegmentSize "SHA256" diff1Target = 1000000 := by
  rw [calculateBaseSegmentSize]
  norm_num [base_segment_sizes, List.lookup, diff1Target, pyInt]

theorem segment_work_gap_eval :
    segment_work gapEff gapWork = [(0, 3), (4, 7), (8, 10)] := by
  rw [gapEff, gapWork, segment_work]
  simp only [Option.getD]
  rw [calculateBaseSegmentSize_sha256_diff1]
  have hadj : pyInt (((1000000 : Int) : ℚ) * (3 / 1000000)) = 3 := by
    rw [pyInt_nonneg_eq_floor (by norm_num)]
    norm_num
  rw [hadj]
  decide

/-! ### Helper lemmas: worker efficiency -/

theorem applyEffEvent_bounds {e : ℚ} (h1 : (0.1 : ℚ) ≤ e) (h2 : e ≤ 2)
    (ev : EffEvent) :
    (0.1 : ℚ) ≤ applyEffEvent e ev ∧ applyEffEvent e ev ≤ 2 := by
  cases ev with
  | rejection =>
    simp only [applyEffEvent]
    constructor
    · exact le_max_left _ _
    · apply max_le (by norm_num)
      nlinarith
  | performance r =>
    by_cases hr : r < (0.02 : ℚ)
    · simp only [applyEffEvent, if_pos hr]
      constructor
      · apply le_min (by norm_num)
        nlinarith
      · exact min_le_left _ _
    · simp only [applyEffEvent, if_neg hr]
      exact ⟨h1, h2⟩

theorem foldl_applyEffEvent_bounds (events : List EffEvent) :
    ∀ e : ℚ, (0.1 : ℚ) ≤ e → e ≤ 2 →
      (0.1 : ℚ) ≤ events.foldl applyEffEvent e ∧ events.foldl applyEffEvent e ≤ 2 := by
  induction events with
  | nil => intro e h1 h2; exact ⟨h1, h2⟩
  | cons ev t ih =>
    intro e h1 h2
    have h := applyEffEvent_bounds h1 h2 ev
    exact ih _ h.1 h.2

theorem foldl_applyEffEvent_rejections_le (events : List EffEvent) :
    ∀ e : ℚ, (0.1 : ℚ) ≤ e → (∀ ev ∈ events, ev = EffEvent.rejection) →
      events.foldl applyEffEvent e ≤ e ∧ (0.1 : ℚ) ≤ events.foldl applyEffEvent e := by
  induction events with
  | nil => intro e h1 _; exact ⟨le_refl e, h1⟩
  | cons ev t ih =>
    intro e h1 hall
    have hev : ev = EffEvent.rejection := hall ev (List.mem_cons_self _ _)
    subst hev
    have hstep1 : applyEffEvent e EffEvent.rejection ≤ e := by
      simp only [applyEffEvent]
      apply max_le
      · exact h1
      · nlinarith
    have hstep2 : (0.1 : ℚ) ≤ applyEffEvent e EffEvent.rejection := by
      simp only [applyEffEvent]
      exact le_max_left _ _
    have ht := ih _ hstep2 (fun x hx => hall x (List.mem_cons_of_mem _ hx))
    exact ⟨le_trans ht.1 hstep1, ht.2⟩

theorem foldl_applyEffEvent_clean_ge (events : List EffEvent) :
    ∀ e : ℚ, 0 ≤ e → e ≤ 2 →
      (∀ ev ∈ events, ∃ r, ev = EffEvent.performance r ∧ r < (0.02 : ℚ)) →
      e ≤ events.foldl applyEffEvent e ∧ events.foldl applyEffEvent e ≤ 2 := by
  induction events with
  | nil => intro e _ h2 _; exact ⟨le_refl e, h2⟩
  | cons ev t ih =>
    intro e h0 h2 hall
    obtain ⟨r, hev, hr⟩ := hall ev (List.mem_cons_self _ _)
    subst hev
    have hstep1 : e ≤ applyEffEvent e (EffEvent.performance r) := by
      simp only [applyEffEvent, if_pos hr]
      apply le_min h2
      nlinarith
    have hstep2 : applyEffEvent e (EffEvent.performance r) ≤ 2 := by
      simp only [applyEffEvent, if_pos hr]
      exact min_le_left _ _
    have hstep0 : 0 ≤ applyEffEvent e (EffEvent.performance r) := le_trans h0 hstep1
    have ht := ih _ hstep0 hstep2 (fun x hx => hall x (List.mem_cons_of_mem _ hx))
    exact ⟨le_trans hstep1 ht.1, ht.2⟩

/-! ### Helper lemmas: the node dict -/

theorem lookup_map_overwrite (id : String) (n : MiningNode) :
    ∀ nodes : List (String × MiningNode), (nodes.lookup id).isSome →
      ((nodes.map fun p => if p.1 = id then (id, n) else p).lookup id) = some n := by
  intro nodes
  induction nodes with
  | nil => intro h; simp [List.lookup] at h
  | cons p t ih =>
    intro h
    by_cases hk : p.1 = id
    · rw [List.map_cons, if_pos hk, List.lookup]
      simp
    · rw [List.map_cons, if_neg hk]
      rw [List.lookup] at h ⊢
      have hne : (id == p.1) = false := by
        simp only [beq_eq_false_iff_ne, ne_eq]
        exact fun he => hk he.symm
      rw [hne] at h ⊢
      exact ih h

theorem lookup_append_new (id : String) (n : MiningNode) :
    ∀ nodes : List (String × MiningNode), nodes.lookup id = none →
      ((nodes ++ [(id, n)]).lookup id) = some n := by
  intro nodes
  induction nodes with
  | nil => intro _; simp [List.lookup]
  | cons p t ih =>
    intro h
    rw [List.cons_append]
    rw [List.lookup] at h ⊢
    by_cases hk : id = p.1
    · have hb : (id == p.1) = true := by simp [hk]
      rw [hb] at h
      exact absurd h (Option.some_ne_none p.2)
    · have hb : (id == p.1) = false := by
        simp only [beq_eq_false_iff_ne, ne_eq]
        exact hk
      rw [hb] at h ⊢
      exact ih h

theorem lookup_setNode (nodes : List (String × MiningNode)) (id : String)
    (n : MiningNode) : (setNode nodes id n).lookup id = some n := by
  rw [setNode]
  split
  · exact lookup_map_overwrite id n nodes (by assumption)
  · rename_i h
    exact lookup_append_new id n nodes (Option.not_isSome_iff_eq_none.mp h)

/-! ### Claim theorems -/

/-- C1 (counterexample): the claimed half-open tiling fails.  On the work
dict with range `[0, 10)` and an adjusted segment size of 3, `segment_work`
emits `[(0,3), (4,7), (8,10)]`; nonce 3 lies in `[0, 10)` but in no emitted
half-open range `[start, end)`: because the loop continues at
`segment_end + 1`, every boundary nonce `segment_end` is skipped. -/
theorem segment_work_gap_cex :
    segment_work gapEff gapWork = [(0, 3), (4, 7), (8, 10)] ∧
    gapWork.nonce_start.getD 0 ≤ 3 ∧
    (3 : Int) < gapWork.nonce_end.getD 0xFFFFFFFF ∧
    ¬∃ p ∈ segment_work gapEff gapWork, p.1 ≤ 3 ∧ (3 : Int) < p.2 := by
  have hs : segment_work gapEff gapWork = [(0, 3), (4, 7), (8, 10)] :=
    segment_work_gap_eval
  refine ⟨hs, by decide, by decide, ?_⟩
  rw [hs]
  decide

/-- C1 (amended): for a non-negative worker efficiency and a non-empty
range, the segments emitted by `segment_work` are consecutive and
non-overlapping, with each segment starting one past the previous segment's
end; the first segment starts at `nonceStart`, every segment's closed range
lies inside `[nonceStart, nonceEnd]`, and every nonce of
`[nonceStart, nonceEnd)` is covered by some segment's closed range
`[start, end]`.  Read half-open (as the repository's miners read them), the
boundary nonce `end` of each non-final segment is omitted, so the
concatenation does not reconstruct `[nonceStart, nonceEnd)`. -/
theorem segment_work_closed_tiling :
    ∀ (eff? : Option ℚ) (work : OptimizerWork),
      0 ≤ eff?.getD 1 →
      work.nonce_start.getD 0 < work.nonce_end.getD 0xFFFFFFFF →
      ((segment_work eff? work).head?.map Prod.fst =
        some (work.nonce_start.getD 0)) ∧
      (∀ p ∈ segment_work eff? work,
        work.nonce_start.getD 0 ≤ p.1 ∧ p.1 ≤ p.2 ∧
          p.2 ≤ work.nonce_end.getD 0xFFFFFFFF) ∧
      List.Chain' (fun p q => q.1 = p.2 + 1) (segment_work eff? work) ∧
      (∀ n, work.nonce_start.getD 0 ≤ n → n < work.nonce_end.getD 0xFFFFFFFF →
        ∃ p ∈ segment_work eff? work, p.1 ≤ n ∧ n ≤ p.2) ∧
      List.Pairwise (fun p q => p.2 < q.1) (segment_work eff? work) := by
  intro eff? work heff hrange
  have hadj : 0 ≤ pyInt
      ((calculateBaseSegmentSize (work.algorithm.getD "SHA256")
        (work.target.getD diff1Target) : ℚ) * eff?.getD 1) := by
    apply pyInt_nonneg
    exact mul_nonneg (Int.cast_nonneg.mpr (calculateBaseSegmentSize_nonneg _ _)) heff
  rw [segment_work]
  exact segmentLoopFuel_props _ _ hadj _ _ hrange le_rfl

/-- C1 (witness): the amended tiling at the concrete `[0, 10)` input. -/
theorem segment_work_closed_tiling_witness :
    (0 : ℚ) ≤ gapEff.getD 1 ∧
    gapWork.nonce_start.getD 0 < gapWork.nonce_end.getD 0xFFFFFFFF ∧
    (∀ n, gapWork.nonce_start.getD 0 ≤ n →
      n < gapWork.nonce_end.getD 0xFFFFFFFF →
      ∃ p ∈ segment_work gapEff gapWork, p.1 ≤ n ∧ n ≤ p.2) :=
  ⟨by norm_num [gapEff], by decide,
    (segment_work_closed_tiling gapEff gapWork (by norm_num [gapEff])
      (by decide)).2.2.2.1⟩

/-- C2: `difficultyToTarget(1.0)` is exactly the canonical difficulty-1
target rendered as a 64-hex-digit zero-padded string;
`difficultyToTarget(2.0)` encodes exactly half that integer (the halving is
exact); and in general the returned string encodes the integer part of
`diff1Target / d`. -/
theorem difficultyToTarget_spec :
    difficultyToTarget 1 =
      "00000000ffff0000000000000000000000000000000000000000000000000000" ∧
    decodeHex? (difficultyToTarget 1) = some diff1Target ∧
    decodeHex? (difficultyToTarget 2) = some (diff1Target / 2) ∧
    diff1Target / 2 * 2 = diff1Target ∧
    (∀ d : ℚ, 0 < d →
      decodeHex? (difficultyToTarget d) = some (⌊(diff1Target : ℚ) / d⌋).toNat) := by
  have h1 : pyInt ((diff1Target : ℚ) / 1) = (diff1Target : Int) := by
    rw [pyInt_nonneg_eq_floor (by positivity)]
    norm_num
  have hs : difficultyToTarget 1 =
      "00000000ffff0000000000000000000000000000000000000000000000000000" := by
    rw [difficultyToTarget, h1, Int.toNat_natCast]
    decide
  refine ⟨hs, ?_, ?_, by norm_num [diff1Target], difficultyToTarget_decode⟩
  · rw [difficultyToTarget_decode 1 one_pos]
    norm_num
  · rw [difficultyToTarget_decode 2 two_pos]
    norm_num [diff1Target]
    decide

/-- C2 (witness): the general clause at the concrete difficulty 4. -/
theorem difficultyToTarget_spec_witness :
    (0 : ℚ) < 4 ∧
    decodeHex? (difficultyToTarget 4) = some (⌊(diff1Target : ℚ) / 4⌋).toNat :=
  ⟨by norm_num, difficultyToTarget_spec.2.2.2.2 4 (by norm_num)⟩

/-- C3 (counterexample): the rebalance-analysis expected hashrate is not
`hardwareScore × algorithmMultiplier`.  For a node with one CPU core and
nothing else on SHA256, that product is 10 but `_expected_hashrate` returns
10000: the code multiplies by a further base-estimation factor of 1000. -/
theorem expectedHashrate_cex :
    hardwareScore c3Node = 10 ∧
    (algorithm_multipliers.lookup c3Node.assigned_algorithm).getD 1.0 = 1 ∧
    expectedHashrate c3Node = 10000 ∧
    expectedHashrate c3Node ≠
      hardwareScore c3Node *
        (algorithm_multipliers.lookup c3Node.assigned_algorithm).getD 1.0 := by
  have h1 : hardwareScore c3Node = 10 := by
    norm_num [hardwareScore, c3Node]
  have h2 : (algorithm_multipliers.lookup c3Node.assigned_algorithm).getD 1.0 = 1 := by
    norm_num [algorithm_multipliers, c3Node, List.lookup]
  have h3 : expectedHashrate c3Node = 10000 := by
    rw [expectedHashrate, h1, h2]
    norm_num
  refine ⟨h1, h2, h3, ?_⟩
  rw [h1, h2, h3]
  norm_num

/-- C3 (amended): the expected hashrate equals the hardware score
(`cores*10 + threads*5 + gpuCount*50 + gpuMemGB*20 + totalMemGB*2`, the
memory sizes converted from bytes to GiB) times the algorithm multiplier
(SHA256=1.0, RandomX=0.8, Ethash=1.2, Scrypt=0.6, default 1.0) times the
additional base-hashrate-estimation factor 1000. -/
theorem expectedHashrate_amended :
    ∀ n : MiningNode,
      hardwareScore n =
        (n.cpu_cores : ℚ) * 10 + (n.cpu_threads : ℚ) * 5 +
          ((n.gpu_count : ℚ) * 50 + ((n.gpu_memory : ℚ) / 1024 ^ 3) * 20) +
          ((n.total_memory : ℚ) / 1024 ^ 3) * 2 ∧
      expectedHashrate n =
        hardwareScore n *
          (if n.assigned_algorithm = "SHA256" then (1.0 : ℚ)
            else if n.assigned_algorithm = "RandomX" then (0.8 : ℚ)
            else if n.assigned_algorithm = "Ethash" then (1.2 : ℚ)
            else if n.assigned_algorithm = "Scrypt" then (0.6 : ℚ)
            else (1.0 : ℚ)) * 1000 := by
  intro n
  have hm : (algorithm_multipliers.lookup n.assigned_algorithm).getD 1.0 =
      (if n.assigned_algorithm = "SHA256" then (1.0 : ℚ)
        else if n.assigned_algorithm = "RandomX" then (0.8 : ℚ)
        else if n.assigned_algorithm = "Ethash" then (1.2 : ℚ)
        else if n.assigned_algorithm = "Scrypt" then (0.6 : ℚ)
        else (1.0 : ℚ)) := by
    by_cases h1 : n.assigned_algorithm = "SHA256"
    · simp [algorithm_multipliers, List.lookup, h1]
    · by_cases h2 : n.assigned_algorithm = "RandomX"
      · simp [algorithm_multipliers, List.lookup, h1, h2]
      · by_cases h3 : n.assigned_algorithm = "Ethash"
        · simp [algorithm_multipliers, List.lookup, h1, h2, h3]
        · by_cases h4 : n.assigned_algorithm = "Scrypt"
          · simp [algorithm_multipliers, List.lookup, h1, h2, h3, h4]
          · have hb1 : (n.assigned_algorithm == "SHA256") = false := by
              simp [h1]
            have hb2 : (n.assigned_algorithm == "RandomX") = false := by
              simp [h2]
            have hb3 : (n.assigned_algorithm == "Ethash") = false := by
              simp [h3]
            have hb4 : (n.assigned_algorithm == "Scrypt") = false := by
              simp [h4]
            simp [algorithm_multipliers, List.lookup, hb1, hb2, hb3, hb4,
              h1, h2, h3, h4]
  constructor
  · rw [hardwareScore]
  · rw [expectedHashrate, hm]

/-- C4 (counterexample): after registering node `n1` and then successfully
assigning it SHA256 work, the stored `ClusterStats` still has an empty
algorithm set while the pure recomputation from the node dict contains
`SHA256`: `assign_work` never calls `_update_cluster_stats`, so the stored
stats are stale. -/
theorem cluster_stats_stale_cex :
    ((assignWork (registerNode initialClusterState c4Info 0 "f").2 "n1"
        "SHA256" "pool1" [] (Except.ok true)).2).stats.algorithms_running = ∅ ∧
    (computeStats ((assignWork (registerNode initialClusterState c4Info 0 "f").2
        "n1" "SHA256" "pool1" [] (Except.ok true)).2).nodes).algorithms_running =
      {"SHA256"} ∧
    ((assignWork (registerNode initialClusterState c4Info 0 "f").2 "n1"
        "SHA256" "pool1" [] (Except.ok true)).2).stats ≠
      computeStats ((assignWork (registerNode initialClusterState c4Info 0 "f").2
        "n1" "SHA256" "pool1" [] (Except.ok true)).2).nodes := by
  refine ⟨rfl, rfl, ?_⟩
  intro h
  have h2 := congrArg ClusterStats.algorithms_running h
  rw [show ((assignWork (registerNode initialClusterState c4Info 0 "f").2 "n1"
        "SHA256" "pool1" [] (Except.ok true)).2).stats.algorithms_running =
      (∅ : Finset String) from rfl] at h2
  rw [show (computeStats ((assignWork
        (registerNode initialClusterState c4Info 0 "f").2 "n1" "SHA256" "pool1"
        [] (Except.ok true)).2).nodes).algorithms_running =
      ({"SHA256"} : Finset String) from rfl] at h2
  exact absurd h2 (by decide)

/-- C4 (amended): `register_node` always leaves the stored stats equal to
the pure recomputation; `unregister_node` and `update_node_status` restore
that consistency whenever it held before the call (their failure paths
leave the state untouched); `assign_work` never updates the stored
`ClusterStats` at all, so a successful assignment leaves them stale until
the next stats-updating operation. -/
theorem cluster_stats_consistency_amended :
    (∀ (s : ClusterState) (info : NodeInfo) (now : ℚ) (freshId : String),
      statsConsistent (registerNode s info now freshId).2) ∧
    (∀ (s : ClusterState) (id : String), statsConsistent s →
      statsConsistent (unregisterNode s id)) ∧
    (∀ (s : ClusterState) (id : String) (d : StatusData) (now : ℚ),
      statsConsistent s → statsConsistent (updateNodeStatus s id d now)) ∧
    (∀ (s : ClusterState) (id algorithm pool : String)
      (segs : List String) (outcome : Except Unit Bool),
      ((assignWork s id algorithm pool segs outcome).2).stats = s.stats) := by
  refine ⟨?_, ?_, ?_, ?_⟩
  · intro s info now freshId
    rfl
  · intro s id h
    rw [unregisterNode]
    split
    · rfl
    · exact h
  · intro s id d now h
    rw [updateNodeStatus]
    cases hl : s.nodes.lookup id with
    | none => exact h
    | some node => rfl
  · intro s id algorithm pool segs outcome
    rw [assignWork]
    cases hl : s.nodes.lookup id with
    | none => rfl
    | some node =>
      cases outcome with
      | error e => rfl
      | ok b => cases b <;> rfl

/-- C4 (witness): consistency holds initially and is preserved by an
unregister call on the initial state. -/
theorem cluster_stats_consistency_witness :
    statsConsistent initialClusterState ∧
    statsConsistent (unregisterNode initialClusterState "n1") :=
  ⟨rfl, cluster_stats_consistency_amended.2.1 initialClusterState "n1" rfl⟩

/-- C5 (counterexample): re-registration does not preserve runtime metrics.
Node `n1` is registered, a status update sets its hashrate to 5, and a
second `register_node` with the same id resets the hashrate to the
dataclass default 0: the code builds a fresh `MiningNode` and overwrites
the whole record. -/
theorem register_resets_metrics_cex :
    (((updateNodeStatus (registerNode initialClusterState c4Info 0 "f").2 "n1"
        c5Status 1).nodes.lookup "n1").map MiningNode.hashrate = some 5) ∧
    ((((registerNode (updateNodeStatus
        (registerNode initialClusterState c4Info 0 "f").2 "n1" c5Status 1)
        c4Info 2 "f").2).nodes.lookup "n1").map MiningNode.hashrate = some 0) ∧
    (some (5 : ℚ) : Option ℚ) ≠ some 0 :=
  ⟨rfl, rfl, by decide⟩

/-- C5 (amended): registration with an id already present (like any
registration) replaces the entire stored node record: after the call the
node under the resolved id is a fresh record whose hardware fields come
from the supplied info and whose runtime metrics are reset to the dataclass
defaults (hashrate 0, empty temperatures, power 0, uptime 0, empty
assignment, no work segments, status `active`). -/
theorem register_overwrites_amended :
    ∀ (s : ClusterState) (info : NodeInfo) (now : ℚ) (freshId : String),
      ((registerNode s info now freshId).2).nodes.lookup
          (registerNode s info now freshId).1 =
        some
          { node_id := (registerNode s info now freshId).1
            hostname := info.hostname.getD "unknown"
            ip_address := info.ip_address.getD "127.0.0.1"
            port := info.port.getD 8080
            status := "active"
            last_seen := now
            cpu_cores := info.cpu_cores.getD 1
            cpu_threads := info.cpu_threads.getD 1
            gpu_count := info.gpu_count.getD 0
            gpu_memory := info.gpu_memory.getD 0
            total_memory := info.total_memory.getD 0
            hashrate := 0
            temperature := []
            power_usage := 0
            uptime := 0
            assigned_algorithm := ""
            assigned_pool := ""
            work_segments := [] } := by
  intro s info now freshId
  exact lookup_setNode s.nodes (resolveNodeId info.node_id freshId) _

/-- C6: for a registered node, `assign_work` returns false and leaves the
whole state (in particular the node) unchanged when the node command raises
or returns false, and on success returns true and updates exactly the
node's assignment fields and status (to `mining`). -/
theorem assign_work_spec :
    ∀ (s : ClusterState) (id algorithm pool : String) (segs : List String)
      (node : MiningNode), s.nodes.lookup id = some node →
      (assignWork s id algorithm pool segs (Except.error ()) = (false, s)) ∧
      (assignWork s id algorithm pool segs (Except.ok false) = (false, s)) ∧
      (assignWork s id algorithm pool segs (Except.ok true) =
        (true,
          { s with
            nodes :=
              setNode s.nodes id
                { node with
                  assigned_algorithm := algorithm
                  assigned_pool := pool
                  work_segments := segs
                  status := "mining" } })) := by
  intro s id algorithm pool segs node h
  refine ⟨?_, ?_, ?_⟩ <;> rw [assignWork, h]

/-- C6 (witness): the failure case at a concretely registered node. -/
theorem assign_work_spec_witness :
    ((registerNode initialClusterState c4Info 0 "f").2).nodes.lookup "n1" =
      some
        { node_id := "n1", hostname := "h", ip_address := "10.0.0.1",
          port := 8080, status := "active", last_seen := 0, cpu_cores := 4,
          cpu_threads := 8, gpu_count := 0, gpu_memory := 0, total_memory := 0,
          hashrate := 0, temperature := [], power_usage := 0, uptime := 0,
          assigned_algorithm := "", assigned_pool := "", work_segments := [] } ∧
    assignWork (registerNode initialClusterState c4Info 0 "f").2 "n1" "SHA256"
        "pool1" [] (Except.error ()) =
      (false, (registerNode initialClusterState c4Info 0 "f").2) :=
  ⟨rfl,
    (assign_work_spec (registerNode initialClusterState c4Info 0 "f").2 "n1"
      "SHA256" "pool1" []
      { node_id := "n1", hostname := "h", ip_address := "10.0.0.1",
        port := 8080, status := "active", last_seen := 0, cpu_cores := 4,
        cpu_threads := 8, gpu_count := 0, gpu_memory := 0, total_memory := 0,
        hashrate := 0, temperature := [], power_usage := 0, uptime := 0,
        assigned_algorithm := "", assigned_pool := "", work_segments := [] }
      rfl).1⟩

/-- C7: a worker's efficiency starts at the default 1.0; each rejection
multiplies it by 0.98 with floor 0.1 and each clean (< 2% rejection)
performance sample multiplies it by 1.01 with cap 2.0; hence it is
non-increasing along rejection-only sequences, non-decreasing along clean
sequences, and stays in `[0.1, 2.0]` under any interleaving. -/
theorem worker_efficiency_spec :
    workerEfficiencyAfter [] = 1 ∧
    (∀ events : List EffEvent,
      (0.1 : ℚ) ≤ workerEfficiencyAfter events ∧ workerEfficiencyAfter events ≤ 2) ∧
    (∀ (events : List EffEvent) (e : ℚ), (0.1 : ℚ) ≤ e →
      (∀ ev ∈ events, ev = EffEvent.rejection) →
      events.foldl applyEffEvent e ≤ e) ∧
    (∀ (events : List EffEvent) (e : ℚ), 0 ≤ e → e ≤ 2 →
      (∀ ev ∈ events, ∃ r, ev = EffEvent.performance r ∧ r < (0.02 : ℚ)) →
      e ≤ events.foldl applyEffEvent e) := by
  refine ⟨rfl, ?_, ?_, ?_⟩
  · intro events
    exact foldl_applyEffEvent_bounds events 1 (by norm_num) (by norm_num)
  · intro events e h1 hall
    exact (foldl_applyEffEvent_rejections_le events e h1 hall).1
  · intro events e h0 h2 hall
    exact (foldl_applyEffEvent_clean_ge events e h0 h2 hall).1

/-- C7 (witness): a single rejection from the default efficiency does not
increase it. -/
theorem worker_efficiency_spec_witness :
    (0.1 : ℚ) ≤ 1 ∧
    [EffEvent.rejection].foldl applyEffEvent 1 ≤ 1 :=
  ⟨by norm_num,
    worker_efficiency_spec.2.2.1 [EffEvent.rejection] 1 (by norm_num) (by decide)⟩

/-- C8: for the pool resolved by the URL/name substring lookup, `get_work`
returns none exactly when that pool is not connected or holds no stored
work; otherwise (for a parseable stored target) it returns the stored work
with the full 32-bit nonce range `nonce_start = 0`,
`nonce_end = 0xFFFFFFFF` attached, leaving the stored work unchanged (the
dict is copied before the update). -/
theorem get_work_spec :
    ∀ (pools : List PoolConnection) (pool_url : String) (p : PoolConnection),
      pools.find? (poolMatches pool_url) = some p →
      ((get_work pools pool_url = Except.ok none) ↔
        (p.connected = false ∨ p.last_work = none)) ∧
      (∀ w t, p.last_work = some w → p.connected = true →
        decodeHex? w.target = some t →
        get_work pools pool_url = Except.ok (some
          { job_id := w.job_id
            algorithm := w.algorithm
            data := w.data
            height := w.height
            timestamp := w.timestamp
            pool_name := w.pool_name
            difficulty := w.difficulty
            nonce_start := 0
            nonce_end := 0xFFFFFFFF
            target := t })) := by
  intro pools pool_url p hfind
  constructor
  · simp only [get_work, hfind]
    cases hc : p.connected with
    | false => simp
    | true =>
      simp only [Bool.true_eq_false, if_false]
      cases hlw : p.last_work with
      | none => simp
      | some w =>
        cases hdec : decodeHex? w.target with
        | none => simp [hdec]
        | some t => simp [hdec]
  · intro w t hlw hc hdec
    simp [get_work, hfind, hlw, hdec, hc]

/-- C8 (witness): the none-iff clause at a concrete connected pool with
stored work. -/
theorem get_work_spec_witness :
    [demoPool].find? (poolMatches "stratum+tcp://pool.example.com:3333") =
      some demoPool ∧
    ((get_work [demoPool] "stratum+tcp://pool.example.com:3333" =
        Except.ok none) ↔
      (demoPool.connected = false ∨ demoPool.last_work = none)) :=
  ⟨by decide,
    (get_work_spec [demoPool] "stratum+tcp://pool.example.com:3333" demoPool
      (by decide)).1⟩

/-- C9: the segmentation loop terminates for every non-negative adjusted
segment size: any fuel of at least `nonce_end - current_nonce` computes the
loop's limit (each iteration advances the nonce cursor by at least one), and
the number of emitted segments is bounded by `nonce_end - nonce_start`;
consequently `segment_work` emits at most `nonce_end - nonce_start` segments
for any work dict and non-negative worker efficiency. -/
theorem segment_work_termination :
    (∀ (f : Nat) (adj ne c : Int), 0 ≤ adj → (ne - c).toNat ≤ f →
      segmentLoopFuel f adj ne c = segmentLoopFuel ((ne - c).toNat) adj ne c) ∧
    (∀ (f : Nat) (adj ne c : Int), 0 ≤ adj →
      (segmentLoopFuel f adj ne c).length ≤ (ne - c).toNat) ∧
    (∀ (eff? : Option ℚ) (work : OptimizerWork), 0 ≤ eff?.getD 1 →
      (segment_work eff? work).length ≤
        (work.nonce_end.getD 0xFFFFFFFF - work.nonce_start.getD 0).toNat) := by
  refine ⟨?_, ?_, ?_⟩
  · intro f adj ne c hadj hf
    exact segmentLoopFuel_stable_aux adj ne hadj _ f c le_rfl hf
  · intro f adj ne c hadj
    exact segmentLoopFuel_length_le adj ne hadj f c
  · intro eff? work heff
    have hadj : 0 ≤ pyInt
        ((calculateBaseSegmentSize (work.algorithm.getD "SHA256")
          (work.target.getD diff1Target) : ℚ) * eff?.getD 1) := by
      apply pyInt_nonneg
      exact mul_nonneg (Int.cast_nonneg.mpr (calculateBaseSegmentSize_nonneg _ _)) heff
    rw [segment_work]
    exact segmentLoopFuel_length_le _ _ hadj _ _

/-- C9 (witness): extra fuel does not change the loop's output on a
concrete range, and the segment count is within the range's size. -/
theorem segment_work_termination_witness :
    (0 : Int) ≤ 3 ∧ ((10 : Int) - 0).toNat ≤ 20 ∧
    segmentLoopFuel 20 3 10 0 = segmentLoopFuel (((10 : Int) - 0).toNat) 3 10 0 :=
  ⟨by decide, by decide, segment_work_termination.1 20 3 10 0 (by decide) (by decide)⟩

/-- C10: when the algorithm is RandomX and available memory is below
2 GiB, the optimized worker configuration has `cpu_threads = 0` (the memory
cap `floor(availableMemGB / 2)` is applied after, and overrides, the
`max(1, cores - 1)` base) and `gpu_intensity = 0`. -/
theorem randomx_low_memory_config :
    ∀ hw : HardwareInfo, hw.memory_available.getD 0 < 2 * 1024 ^ 3 →
      optimizeWorkerConfiguration hw "RandomX" = (0, 0) := by
  intro hw hmem
  have hfloor : (⌊((hw.memory_available.getD 0 : Nat) : ℚ) / 1024 ^ 3 / 2⌋ : Int) = 0 := by
    rw [Int.floor_eq_zero_iff]
    constructor
    · positivity
    · rw [div_div, div_lt_one (by norm_num)]
      have hc : ((hw.memory_available.getD 0 : Nat) : ℚ) <
          ((2 * 1024 ^ 3 : Nat) : ℚ) := by
        exact_mod_cast hmem
      calc ((hw.memory_available.getD 0 : Nat) : ℚ)
          < ((2 * 1024 ^ 3 : Nat) : ℚ) := hc
        _ = 1024 ^ 3 * 2 := by norm_num
  simp [optimizeWorkerConfiguration, hfloor]

/-- C10 (witness): the RandomX configuration at 1 GB of available memory. -/
theorem randomx_low_memory_config_witness :
    lowMemHw.memory_available.getD 0 < 2 * 1024 ^ 3 ∧
    optimizeWorkerConfiguration lowMemHw "RandomX" = (0, 0) :=
  ⟨by norm_num [lowMemHw],
    randomx_low_memory_config lowMemHw (by norm_num [lowMemHw])⟩
